import Mathlib

/-!
Verification of the grid-topology builder and the power-flow dataset
generator of this repository, as a shallow embedding in Lean 4.

Part 1 models `src/complete_grids/high_generation_injection_meshed_fictional_grid.py`:
the dictionary `grid_data` becomes the structure `GridData`, and
`add_ring_bus_from_to` / `create_grid_topo` become functions on it.  The
Python list accesses `buses[-1]` and `buses[0]`, which raise `IndexError`
on an empty list, are modelled with `List.getLast?` / `List.head?`, so the
builder returns an `Option GridData`.
-/

structure GridData where
  id_end : Nat
  mv_bus : Nat
  line_from : List Nat
  line_to : List Nat
  buses : List Nat
deriving DecidableEq, Repr

/-- Embedding of `add_ring_bus_from_to(grid_data, n_ring_num, is_mesh)`.
`list(range(id_end, id_end + n_ring_num))` is `List.range' id_end n_ring_num`;
`buses[:-1]` is `dropLast`, `buses[1:]` is `tail`; the accesses `buses[-1]`
and `buses[0]` fail on an empty list, giving `none`. -/
def add_ring_bus_from_to (grid_data : GridData) (n_ring_num : Nat) (is_mesh : Bool) :
    Option GridData :=
  let id_end := grid_data.id_end
  let buses : List Nat := List.range' id_end n_ring_num
  match buses.getLast?, buses.head? with
  | some last, some first =>
      let gd1 : GridData :=
        { grid_data with
          buses := grid_data.buses ++ buses
          id_end := last + 1
          line_from := grid_data.line_from ++ [first] ++ buses.dropLast
          line_to := grid_data.line_to ++ [grid_data.mv_bus] ++ buses.tail }
      if is_mesh then
        some { gd1 with
               line_from := gd1.line_from ++ [first]
               line_to := gd1.line_to ++ [last] }
      else
        some gd1
  | _, _ => none

/-- Embedding of `create_grid_topo()`: two rings of four buses each, the
first ring meshed, starting from `id_end = 10` with medium-voltage bus 0. -/
def create_grid_topo : Option GridData :=
  let n_rings := 2
  let n_ring_num := 4
  let n_meshes := 1
  let is_mesh_list := List.replicate n_meshes true ++ List.replicate (n_rings - n_meshes) false
  let grid_data : GridData := { id_end := 10, mv_bus := 0, line_from := [], line_to := [], buses := [] }
  ((List.range n_rings).zip is_mesh_list).foldlM
    (fun gd p => add_ring_bus_from_to gd n_ring_num p.2) grid_data

lemma add_ring_zero (gd : GridData) (mesh : Bool) :
    add_ring_bus_from_to gd 0 mesh = none := rfl

lemma getLast?_cons_range' (a m : Nat) :
    (a :: List.range' (a + 1) m).getLast? = some (a + m) := by
  rw [← List.range'_succ, List.getLast?_range']
  simp

lemma add_ring_succ (gd : GridData) (m : Nat) (mesh : Bool) :
    add_ring_bus_from_to gd (m + 1) mesh =
      some (
        let buses := List.range' gd.id_end (m + 1)
        let gd1 : GridData :=
          { gd with
            buses := gd.buses ++ buses
            id_end := gd.id_end + m + 1
            line_from := gd.line_from ++ [gd.id_end] ++ buses.dropLast
            line_to := gd.line_to ++ [gd.mv_bus] ++ buses.tail }
        if mesh then
          { gd1 with
            line_from := gd1.line_from ++ [gd.id_end]
            line_to := gd1.line_to ++ [gd.id_end + m] }
        else gd1) := by
  cases mesh <;>
    simp [add_ring_bus_from_to, List.range'_succ, getLast?_cons_range']

/-- C9: `add_ring_bus_from_to` succeeds exactly when `n_ring_num ≥ 1`:
with `n_ring_num = 0` the bus list is empty and the accesses `buses[-1]`
and `buses[0]` fail; with `n_ring_num ≥ 1` every list access is in bounds. -/
theorem add_ring_isSome_iff (gd : GridData) (n : Nat) (mesh : Bool) :
    (add_ring_bus_from_to gd n mesh).isSome ↔ 1 ≤ n := by
  cases n with
  | zero => simp [add_ring_zero]
  | succ m => simp [add_ring_succ]

/-- C1, counterexample: the topology built by `create_grid_topo` has 9
lines (two rings, four buses each, one meshed: 4 + 1 + 4), not the
(4 − 1) + 1 + (4 − 1) = 7 the claim predicts, because each ring also
contributes the line joining its first bus to the medium-voltage bus. -/
theorem create_grid_topo_line_count_ne_claimed :
    create_grid_topo.map (fun gd => gd.line_from.length) = some 9 ∧
    create_grid_topo.map (fun gd => gd.line_to.length) = some 9 ∧
    (9 : Nat) ≠ (4 - 1) + 1 + (4 - 1) := by
  refine ⟨?_, ?_, by decide⟩ <;> rfl

/-- C1, amended: every successful call of `add_ring_bus_from_to` with
`n_ring_num` buses adds exactly `n_ring_num` line entries — the line to
the medium-voltage bus plus `n_ring_num − 1` chaining lines — plus one
additional closing line when the ring is mesh-enabled; in particular the
topology built by `create_grid_topo` has (4 + 1) + 4 = 9 lines. -/
theorem add_ring_line_count (gd gd' : GridData) (n : Nat) (mesh : Bool)
    (h : add_ring_bus_from_to gd n mesh = some gd') :
    gd'.line_from.length = gd.line_from.length + n + (if mesh then 1 else 0) ∧
    gd'.line_to.length = gd.line_to.length + n + (if mesh then 1 else 0) ∧
    create_grid_topo.map (fun g => g.line_from.length) = some 9 := by
  refine ⟨?_, ?_, rfl⟩ <;>
  · cases n with
    | zero => rw [add_ring_zero] at h; exact absurd h (by simp)
    | succ m =>
        rw [add_ring_succ] at h
        cases mesh <;>
        · injection h with h
          subst h
          simp [List.length_dropLast, List.length_tail, List.length_range']
          all_goals omega

theorem add_ring_line_count_witness :
    add_ring_bus_from_to ⟨10, 0, [], [], []⟩ 1 true =
      some ⟨11, 0, [10, 10], [0, 10], [10]⟩ ∧
    (⟨11, 0, [10, 10], [0, 10], [10]⟩ : GridData).line_from.length =
      ([] : List Nat).length + 1 + (if true then 1 else 0) := by
  refine ⟨by decide, ?_⟩
  exact (add_ring_line_count ⟨10, 0, [], [], []⟩ ⟨11, 0, [10, 10], [0, 10], [10]⟩ 1 true
    (by decide)).1

/-- C10: each successful call of `add_ring_bus_from_to` allocates exactly
the consecutive identifiers `id_end, …, id_end + n − 1`, appends them to
the bus list, and advances `id_end` to the old `id_end + n`, so every
allocated identifier is below the new `id_end` and the identifier sets of
two successive calls are disjoint. -/
theorem add_ring_alloc_invariant (gd gd' gd'' : GridData) (n₁ n₂ : Nat) (m₁ m₂ : Bool)
    (h₁ : add_ring_bus_from_to gd n₁ m₁ = some gd')
    (h₂ : add_ring_bus_from_to gd' n₂ m₂ = some gd'') :
    gd'.buses = gd.buses ++ List.range' gd.id_end n₁ ∧
    gd'.id_end = gd.id_end + n₁ ∧
    gd''.buses = gd'.buses ++ List.range' gd'.id_end n₂ ∧
    (∀ b ∈ List.range' gd.id_end n₁, b < gd'.id_end) ∧
    (∀ b ∈ List.range' gd.id_end n₁, b ∉ List.range' gd'.id_end n₂) := by
  have key : ∀ (g g₂ : GridData) (n : Nat) (m : Bool),
      add_ring_bus_from_to g n m = some g₂ →
      g₂.buses = g.buses ++ List.range' g.id_end n ∧ g₂.id_end = g.id_end + n := by
    intro g g₂ n m h
    cases n with
    | zero => rw [add_ring_zero] at h; exact absurd h (by simp)
    | succ k =>
        rw [add_ring_succ] at h
        cases m <;> · injection h with h; subst h; constructor <;> simp <;> omega
  obtain ⟨hb, he⟩ := key gd gd' n₁ m₁ h₁
  refine ⟨hb, he, (key gd' gd'' n₂ m₂ h₂).1, ?_, ?_⟩
  · intro b hbmem
    rw [List.mem_range'_1] at hbmem
    omega
  · intro b hbmem hbmem'
    rw [List.mem_range'_1] at hbmem hbmem'
    omega

theorem add_ring_alloc_invariant_witness :
    add_ring_bus_from_to ⟨10, 0, [], [], []⟩ 1 false = some ⟨11, 0, [10], [0], [10]⟩ ∧
    add_ring_bus_from_to ⟨11, 0, [10], [0], [10]⟩ 1 false =
      some ⟨12, 0, [10, 11], [0, 0], [10, 11]⟩ ∧
    (⟨11, 0, [10], [0], [10]⟩ : GridData).buses = [] ++ List.range' 10 1 := by
  refine ⟨by decide, by decide, ?_⟩
  exact (add_ring_alloc_invariant ⟨10, 0, [], [], []⟩ ⟨11, 0, [10], [0], [10]⟩
    ⟨12, 0, [10, 11], [0, 0], [10, 11]⟩ 1 1 false false (by decide) (by decide)).1

/-!
Part 2 models `src/data_generation_solution_prediction.py`.  The external
pandapower solver is a black box: each call of `pp.runpp` is modelled by
its observable outcome, a `SolveResult` (admittance matrix `Ybus`,
injection vector `Sbus`, solved voltages, iteration count) or `none` for
`LoadflowNotConverged`.  NumPy vectors over the `k + 1` buses become
functions `Fin (k + 1) → ℝ` (bus 0 is the reference bus), and complex
arrays become values in `ℂ`.
-/

noncomputable section

/-- `np.deg2rad`: multiply by pi over 180. -/
def deg2rad (x : ℝ) : ℝ := x * (Real.pi / 180)

/-- Embedding of `PowerFlowDataset.compute_residual`: form the complex
voltage vector from magnitudes and angles in degrees, apply the admittance
matrix, multiply the diagonal voltage matrix by the conjugated current,
subtract the injection and drop entry 0 (`residual[1:]`). -/
def compute_residual {n : ℕ} (V_mag V_ang : Fin (n + 1) → ℝ)
    (Ybus : Matrix (Fin (n + 1)) (Fin (n + 1)) ℂ) (S : Fin (n + 1) → ℂ) :
    Fin n → ℂ :=
  let V_rad := fun i => deg2rad (V_ang i)
  let complex_v : Fin (n + 1) → ℂ :=
    fun i => (V_mag i : ℂ) * Complex.exp ((V_rad i : ℂ) * Complex.I)
  let current := Ybus.mulVec complex_v
  let diag_V := Matrix.diagonal complex_v
  let residual := diag_V.mulVec (fun j => star (current j)) - S
  fun i => residual i.succ

/-- Modelled from the spec's words, for comparison with `compute_residual`:
the mismatch `diag(V) · conj(Ybus · V) − S` written elementwise, with
`V = V_mag · exp(i · deg2rad(V_ang))`, excluding the reference entry 0. -/
def residual_spec {n : ℕ} (V_mag V_ang : Fin (n + 1) → ℝ)
    (Ybus : Matrix (Fin (n + 1)) (Fin (n + 1)) ℂ) (S : Fin (n + 1) → ℂ) :
    Fin n → ℂ :=
  let V : Fin (n + 1) → ℂ :=
    fun i => (V_mag i : ℂ) * Complex.exp (Complex.I * (deg2rad (V_ang i) : ℂ))
  fun i => V i.succ * star (Ybus.mulVec V i.succ) - S i.succ

/-- C2: `compute_residual` returns exactly the elementwise mismatch
`V · conj(Ybus · V) − S` with `V = V_mag · exp(i · deg2rad(V_ang))`,
with the entry at index 0 (the reference bus) removed. -/
theorem compute_residual_eq_spec {n : ℕ} (V_mag V_ang : Fin (n + 1) → ℝ)
    (Ybus : Matrix (Fin (n + 1)) (Fin (n + 1)) ℂ) (S : Fin (n + 1) → ℂ) :
    compute_residual V_mag V_ang Ybus S = residual_spec V_mag V_ang Ybus S := by
  funext i
  simp [compute_residual, residual_spec, Matrix.mulVec_diagonal, mul_comm]

/-- Observable outcome of a successful `pp.runpp` call: the solver-internal
artifacts `_ppc["iterations"]`, `_ppc["internal"]["Ybus"]`,
`_ppc["internal"]["Sbus"]` and the solved `res_bus` voltages. -/
structure SolveResult (k : ℕ) where
  iterations : ℕ
  Ybus : Matrix (Fin (k + 1)) (Fin (k + 1)) ℂ
  Sbus : Fin (k + 1) → ℂ
  vm_pu : Fin (k + 1) → ℝ
  va_degree : Fin (k + 1) → ℝ

/-- One loop iteration of `generate_samples`, with the two
`np.random.uniform` draws and the perturbed solve's outcome taken as
inputs (`none` models `LoadflowNotConverged`). -/
structure Draw (k : ℕ) where
  dv : Fin (k + 1) → ℝ
  dtheta : Fin (k + 1) → ℝ
  outcome : Option (SolveResult k)

/-- The dictionary appended to `self.samples` on a converged draw. -/
structure SampleRecord (k : ℕ) where
  P : Fin (k + 1) → ℝ
  Q : Fin (k + 1) → ℝ
  G : Matrix (Fin (k + 1)) (Fin (k + 1)) ℝ
  B : Matrix (Fin (k + 1)) (Fin (k + 1)) ℝ
  V_init : Fin (k + 1) → ℝ
  theta_init : Fin (k + 1) → ℝ
  iterations : ℕ
  V_pred : Fin (k + 1) → ℝ
  Phi_pred : Fin (k + 1) → ℝ
  resd_real : Fin k → ℝ
  resd_imag : Fin k → ℝ

/-- `v_ill = v_nominal + np.random.uniform(-r, r, len(v_nominal))`, with
the drawn perturbation vector `delta` made explicit. -/
def perturbed {k : ℕ} (nominal delta : Fin (k + 1) → ℝ) : Fin (k + 1) → ℝ :=
  fun i => nominal i + delta i

/-- The record built in the `try` branch of `generate_samples`: note that
the stored `iterations` field is `it = net._ppc["iterations"]`, read from
the *base* network `net`, while the perturbed solve's own count
`net_ill._ppc["iterations"]` is bound but never stored; the residual is
computed at the perturbed solve's `res_bus` solution. -/
def mkSample {k : ℕ} (base : SolveResult k) (v_ill theta_ill : Fin (k + 1) → ℝ)
    (sr : SolveResult k) : SampleRecord k :=
  let resd := compute_residual sr.vm_pu sr.va_degree sr.Ybus sr.Sbus
  { P := fun i => (sr.Sbus i).re
    Q := fun i => (sr.Sbus i).im
    G := fun i j => (sr.Ybus i j).re
    B := fun i j => (sr.Ybus i j).im
    V_init := v_ill
    theta_init := theta_ill
    iterations := base.iterations
    V_pred := sr.vm_pu
    Phi_pred := sr.va_degree
    resd_real := fun i => (resd i).re
    resd_imag := fun i => (resd i).im }

/-- The diagnostic printed in the `except LoadflowNotConverged` branch. -/
def nonconvergence_message (idx : ℕ) : String :=
  "Sample " ++ toString idx ++ ": Ill-conditioned case did not converge!"

/-- One iteration of the sampling loop, acting on the pair
(samples so far, diagnostics printed so far). -/
def process_draw {k : ℕ} (base : SolveResult k)
    (v_nominal theta_nominal : Fin (k + 1) → ℝ)
    (st : List (SampleRecord k) × List String) (idx : ℕ) (d : Draw k) :
    List (SampleRecord k) × List String :=
  let v_ill := perturbed v_nominal d.dv
  let theta_ill := perturbed theta_nominal d.dtheta
  match d.outcome with
  | some sr => (st.1 ++ [mkSample base v_ill theta_ill sr], st.2)
  | none => (st.1, st.2 ++ [nonconvergence_message idx])

/-- `for _ in range(self.num_samples)`, with the sample index threaded
through for the diagnostic message. -/
def sample_loop {k : ℕ} (base : SolveResult k)
    (v_nominal theta_nominal : Fin (k + 1) → ℝ) :
    ℕ → List (Draw k) → List (SampleRecord k) × List String →
    List (SampleRecord k) × List String
  | _, [], st => st
  | idx, d :: ds, st =>
      sample_loop base v_nominal theta_nominal (idx + 1) ds
        (process_draw base v_nominal theta_nominal st idx d)

/-- Embedding of `PowerFlowDataset.generate_samples`: if the base solve
does not converge the method returns with no samples; otherwise the
nominal solution is read from the base solve and the perturbation loop
runs over the given draws, one per requested sample. -/
def generate_samples {k : ℕ} (base_outcome : Option (SolveResult k))
    (draws : List (Draw k)) : List (SampleRecord k) × List String :=
  match base_outcome with
  | none => ([], [])
  | some base => sample_loop base base.vm_pu base.va_degree 0 draws ([], [])

lemma sample_loop_mem {k : ℕ} (base : SolveResult k)
    (v_nominal theta_nominal : Fin (k + 1) → ℝ) (P : SampleRecord k → Prop)
    (hmk : ∀ v θ sr, P (mkSample base v θ sr)) :
    ∀ (ds : List (Draw k)) (idx : ℕ) (st : List (SampleRecord k) × List String),
      (∀ r ∈ st.1, P r) →
      ∀ r ∈ (sample_loop base v_nominal theta_nominal idx ds st).1, P r := by
  intro ds
  induction ds with
  | nil => intro idx st h r hr; exact h r hr
  | cons d ds ih =>
      intro idx st h r hr
      refine ih (idx + 1) _ ?_ r hr
      intro r' hr'
      obtain ⟨dv, dθ, outcome⟩ := d
      cases outcome with
      | some sr =>
          simp only [process_draw, List.mem_append, List.mem_singleton] at hr'
          rcases hr' with hr' | hr'
          · exact h r' hr'
          · subst hr'; exact hmk _ _ sr
      | none => exact h r' hr'

/-- C3: every record retained by `generate_samples` stores as its
`iterations` field the iteration count of the *base* solve, and its
`resd_real` / `resd_imag` fields are the residual evaluated at that
record's converged solution `V_pred` / `Phi_pred` (with the recorded
admittance `G + iB` and injection `P + iQ`), not at the perturbed initial
guess `V_init` / `theta_init`. -/
theorem generate_samples_iterations_and_residual {k : ℕ} (base : SolveResult k)
    (draws : List (Draw k)) :
    ∀ r ∈ (generate_samples (some base) draws).1,
      r.iterations = base.iterations ∧
      r.resd_real = (fun i => (compute_residual r.V_pred r.Phi_pred
        (fun a b => (r.G a b : ℂ) + (r.B a b : ℂ) * Complex.I)
        (fun a => (r.P a : ℂ) + (r.Q a : ℂ) * Complex.I) i).re) ∧
      r.resd_imag = (fun i => (compute_residual r.V_pred r.Phi_pred
        (fun a b => (r.G a b : ℂ) + (r.B a b : ℂ) * Complex.I)
        (fun a => (r.P a : ℂ) + (r.Q a : ℂ) * Complex.I) i).im) := by
  refine sample_loop_mem base base.vm_pu base.va_degree _ ?_ draws 0 ([], [])
    (by intro r hr; exact absurd hr (List.not_mem_nil r))
  intro v θ sr
  have hY : (fun a b => (((mkSample base v θ sr).G a b : ℂ) +
      ((mkSample base v θ sr).B a b : ℂ) * Complex.I)) = sr.Ybus := by
    funext a b
    exact Complex.re_add_im (sr.Ybus a b)
  have hS : (fun a => (((mkSample base v θ sr).P a : ℂ) +
      ((mkSample base v θ sr).Q a : ℂ) * Complex.I)) = sr.Sbus := by
    funext a
    exact Complex.re_add_im (sr.Sbus a)
  refine ⟨rfl, ?_, ?_⟩ <;> · rw [hY, hS]; rfl

lemma sample_loop_length {k : ℕ} (base : SolveResult k)
    (v_nominal theta_nominal : Fin (k + 1) → ℝ) :
    ∀ (ds : List (Draw k)) (idx : ℕ) (st : List (SampleRecord k) × List String),
      (sample_loop base v_nominal theta_nominal idx ds st).1.length +
        (ds.countP fun d => d.outcome.isNone) = st.1.length + ds.length := by
  intro ds
  induction ds with
  | nil => intro idx st; simp [sample_loop]
  | cons d ds ih =>
      intro idx st
      rw [sample_loop, List.countP_cons]
      obtain ⟨dv, dθ, outcome⟩ := d
      cases outcome with
      | some sr =>
          have h2 := ih (idx + 1)
            (process_draw base v_nominal theta_nominal st idx ⟨dv, dθ, some sr⟩)
          simp [process_draw] at h2 ⊢
          omega
      | none =>
          have h2 := ih (idx + 1)
            (process_draw base v_nominal theta_nominal st idx ⟨dv, dθ, none⟩)
          simp [process_draw] at h2 ⊢
          omega

/-- C4: when the base case converges, each of the draws either produces
exactly one retained record (on convergence) or is discarded (on
non-convergence): retained records plus discarded draws equal the number
of draws, one per requested sample. -/
theorem generate_samples_retained_add_discarded {k : ℕ} (base : SolveResult k)
    (draws : List (Draw k)) :
    (generate_samples (some base) draws).1.length +
      (draws.countP fun d => d.outcome.isNone) = draws.length := by
  have h := sample_loop_length base base.vm_pu base.va_degree draws 0 ([], [])
  simpa [generate_samples] using h

/-- C5: on a draw whose solve does not converge, no record is appended,
the diagnostic naming the sample index is emitted, and the loop continues
with the next draw from an otherwise unchanged state. -/
theorem process_draw_nonconvergence {k : ℕ} (base : SolveResult k)
    (v_nominal theta_nominal : Fin (k + 1) → ℝ)
    (st : List (SampleRecord k) × List String) (idx : ℕ) (d : Draw k)
    (h : d.outcome = none) :
    process_draw base v_nominal theta_nominal st idx d =
      (st.1, st.2 ++ [nonconvergence_message idx]) ∧
    ∀ ds, sample_loop base v_nominal theta_nominal idx (d :: ds) st =
      sample_loop base v_nominal theta_nominal (idx + 1) ds
        (st.1, st.2 ++ [nonconvergence_message idx]) := by
  have hp : process_draw base v_nominal theta_nominal st idx d =
      (st.1, st.2 ++ [nonconvergence_message idx]) := by
    obtain ⟨dv, dθ, outcome⟩ := d
    cases h
    rfl
  exact ⟨hp, fun ds => by rw [sample_loop, hp]⟩

/-- C6: with the uniform draws modelled as inputs bounded by the
perturbation radii, every perturbed initial voltage magnitude lies within
[nominal − v_perturb, nominal + v_perturb] componentwise, and every
perturbed initial angle within [nominal − theta_perturb, nominal + theta_perturb]. -/
theorem perturbation_within_radius {k : ℕ}
    (v_nominal theta_nominal dv dθ : Fin (k + 1) → ℝ) (rv rθ : ℝ)
    (hv : ∀ i, dv i ∈ Set.Icc (-rv) rv) (hθ : ∀ i, dθ i ∈ Set.Icc (-rθ) rθ) :
    (∀ i, perturbed v_nominal dv i ∈
      Set.Icc (v_nominal i - rv) (v_nominal i + rv)) ∧
    (∀ i, perturbed theta_nominal dθ i ∈
      Set.Icc (theta_nominal i - rθ) (theta_nominal i + rθ)) := by
  constructor <;> intro i
  · obtain ⟨h1, h2⟩ := hv i
    rw [Set.mem_Icc]
    constructor <;> · simp only [perturbed]; linarith
  · obtain ⟨h1, h2⟩ := hθ i
    rw [Set.mem_Icc]
    constructor <;> · simp only [perturbed]; linarith

/-- Heap of pandapower network objects, indexed by object identity:
`nets` maps identities to network values, `next` is the next fresh
identity.  This makes the aliasing of `self.base_net` explicit. -/
structure NetStore (Net : Type) where
  nets : ℕ → Net
  next : ℕ

/-- `.deepcopy()`: allocate a fresh object holding the same network value
and return the store together with the new object's identity. -/
def deepcopy {Net : Type} (s : NetStore Net) (src : ℕ) : NetStore Net × ℕ :=
  (⟨Function.update s.nets s.next (s.nets src), s.next + 1⟩, s.next)

/-- `pp.runpp(net, ...)` mutates the network object it is given in place;
the solver itself is the black-box function `solve`. -/
def runpp {Net : Type} (solve : Net → Net) (s : NetStore Net) (id : ℕ) :
    NetStore Net :=
  ⟨Function.update s.nets id (solve (s.nets id)), s.next⟩

/-- The per-sample loop of `generate_samples` as it acts on the object
store: each iteration deep-copies the base network and solves the copy
(`net_ill = self.base_net.deepcopy(); pp.runpp(net_ill, ...)`). -/
def ill_loop {Net : Type} (solve_ill : ℕ → Net → Net) (baseId : ℕ) :
    ℕ → ℕ → NetStore Net → NetStore Net
  | _, 0, s => s
  | idx, n + 1, s =>
      let copy := deepcopy s baseId
      ill_loop solve_ill baseId (idx + 1) n (runpp (solve_ill idx) copy.1 copy.2)

/-- `generate_samples` as it acts on the object store: the base-case solve
also runs on a deep copy (`net = self.base_net.deepcopy(); pp.runpp(net)`),
then the per-sample loop runs `num_samples` times. -/
def generate_samples_store {Net : Type} (solve_base : Net → Net)
    (solve_ill : ℕ → Net → Net) (s : NetStore Net) (baseId num_samples : ℕ) :
    NetStore Net :=
  let copy := deepcopy s baseId
  ill_loop solve_ill baseId 0 num_samples (runpp solve_base copy.1 copy.2)

lemma copy_solve_frame {Net : Type} (solve : Net → Net) (s : NetStore Net)
    (baseId : ℕ) (h : baseId < s.next) :
    (runpp solve (deepcopy s baseId).1 (deepcopy s baseId).2).nets baseId =
      s.nets baseId ∧
    (runpp solve (deepcopy s baseId).1 (deepcopy s baseId).2).next = s.next + 1 := by
  have hne : baseId ≠ s.next := Nat.ne_of_lt h
  constructor
  · simp [deepcopy, runpp, Function.update_apply, hne]
  · rfl

lemma ill_loop_frame {Net : Type} (solve_ill : ℕ → Net → Net) (baseId : ℕ) :
    ∀ (n idx : ℕ) (s : NetStore Net), baseId < s.next →
      (ill_loop solve_ill baseId idx n s).nets baseId = s.nets baseId ∧
      s.next ≤ (ill_loop solve_ill baseId idx n s).next := by
  intro n
  induction n with
  | zero => intro idx s h; exact ⟨rfl, Nat.le_refl _⟩
  | succ m ih =>
      intro idx s h
      obtain ⟨h1, h2⟩ := copy_solve_frame (solve_ill idx) s baseId h
      have hlt : baseId < (runpp (solve_ill idx) (deepcopy s baseId).1
          (deepcopy s baseId).2).next := by omega
      obtain ⟨ih1, ih2⟩ := ih (idx + 1) _ hlt
      rw [ill_loop]
      exact ⟨ih1.trans h1, by omega⟩

/-- C7: the stored base network is never mutated by `generate_samples`:
the base-case solve and every perturbed solve run on fresh deep copies,
so the network object at `baseId` holds the same value before and after
the whole sample generation. -/
theorem generate_samples_store_preserves_base {Net : Type} (solve_base : Net → Net)
    (solve_ill : ℕ → Net → Net) (s : NetStore Net) (baseId num_samples : ℕ)
    (h : baseId < s.next) :
    (generate_samples_store solve_base solve_ill s baseId num_samples).nets baseId =
      s.nets baseId := by
  obtain ⟨h1, h2⟩ := copy_solve_frame solve_base s baseId h
  have hlt : baseId < (runpp solve_base (deepcopy s baseId).1 (deepcopy s baseId).2).next := by
    omega
  obtain ⟨ih1, _⟩ := ill_loop_frame solve_ill baseId num_samples 0 _ hlt
  calc (generate_samples_store solve_base solve_ill s baseId num_samples).nets baseId
      = (runpp solve_base (deepcopy s baseId).1 (deepcopy s baseId).2).nets baseId := ih1
    _ = s.nets baseId := h1

theorem generate_samples_store_preserves_base_witness :
    (0 : ℕ) < (1 : ℕ) ∧
    (generate_samples_store (fun n => n + 1) (fun _ n => n + 2)
      (⟨fun _ => 7, 1⟩ : NetStore ℕ) 0 2).nets 0 = 7 :=
  ⟨Nat.zero_lt_one,
    generate_samples_store_preserves_base (fun n => n + 1) (fun _ n => n + 2)
      (⟨fun _ => 7, 1⟩ : NetStore ℕ) 0 2 Nat.zero_lt_one⟩

/-- Value stored under one key of a sample dictionary: a per-bus real
vector, a vector excluding the reference bus, a (flattened) real matrix,
or the iteration count. -/
inductive DVal (k : ℕ) where
  | rvec : (Fin (k + 1) → ℝ) → DVal k
  | rvecTail : (Fin k → ℝ) → DVal k
  | rmat : (Matrix (Fin (k + 1)) (Fin (k + 1)) ℝ) → DVal k
  | count : ℕ → DVal k

/-- The dictionary literal appended by `generate_samples`, with its exact
keys in order. -/
def SampleRecord.toDict {k : ℕ} (r : SampleRecord k) : List (String × DVal k) :=
  [("P", DVal.rvec r.P), ("Q", DVal.rvec r.Q), ("G", DVal.rmat r.G),
   ("B", DVal.rmat r.B), ("V_init", DVal.rvec r.V_init),
   ("theta_init", DVal.rvec r.theta_init), ("iterations", DVal.count r.iterations),
   ("V_pred", DVal.rvec r.V_pred), ("Phi_pred", DVal.rvec r.Phi_pred),
   ("resd_real", DVal.rvecTail r.resd_real), ("resd_imag", DVal.rvecTail r.resd_imag)]

/-- A Python dictionary read: a missing key raises `KeyError(key)`. -/
def dictGet {k : ℕ} (d : List (String × DVal k)) (key : String) :
    Except String (DVal k) :=
  match d.lookup key with
  | some v => Except.ok v
  | none => Except.error key

/-- Embedding of `PowerFlowDataset.__getitem__`: it reads
`sample['input']` first and `sample['output']` second. -/
def getItem {k : ℕ} (d : List (String × DVal k)) :
    Except String (DVal k × DVal k) := do
  let i ← dictGet d "input"
  let o ← dictGet d "output"
  return (i, o)

/-- C8: every record appended by `generate_samples` holds only the keys
P, Q, G, B, V_init, theta_init, iterations, V_pred, Phi_pred, resd_real,
resd_imag, so `__getitem__` raises `KeyError('input')` on it and the
Dataset indexing interface never returns successfully. -/
theorem getitem_keyerror_input {k : ℕ} (base : SolveResult k)
    (draws : List (Draw k)) :
    ∀ r ∈ (generate_samples (some base) draws).1,
      getItem (SampleRecord.toDict r) = Except.error "input" := by
  refine sample_loop_mem base base.vm_pu base.va_degree _ ?_ draws 0 ([], [])
    (by intro r hr; exact absurd hr (List.not_mem_nil r))
  intro v θ sr
  rfl

/-- Concrete one-load-bus solver outcome used to instantiate the theorems
about `generate_samples`. -/
def sr0 : SolveResult 0 :=
  { iterations := 3, Ybus := fun _ _ => 0, Sbus := fun _ => 0,
    vm_pu := fun _ => 1, va_degree := fun _ => 0 }

def zfun : Fin 1 → ℝ := fun _ => 0

def draws0 : List (Draw 0) := [⟨zfun, zfun, some sr0⟩]

def r0 : SampleRecord 0 :=
  mkSample sr0 (perturbed sr0.vm_pu zfun) (perturbed sr0.va_degree zfun) sr0

theorem generate_samples_iterations_and_residual_witness :
    r0.iterations = sr0.iterations ∧
    r0.resd_real = (fun i => (compute_residual r0.V_pred r0.Phi_pred
      (fun a b => (r0.G a b : ℂ) + (r0.B a b : ℂ) * Complex.I)
      (fun a => (r0.P a : ℂ) + (r0.Q a : ℂ) * Complex.I) i).re) ∧
    r0.resd_imag = (fun i => (compute_residual r0.V_pred r0.Phi_pred
      (fun a b => (r0.G a b : ℂ) + (r0.B a b : ℂ) * Complex.I)
      (fun a => (r0.P a : ℂ) + (r0.Q a : ℂ) * Complex.I) i).im) :=
  generate_samples_iterations_and_residual sr0 draws0 r0
    (by simp [generate_samples, sample_loop, process_draw, draws0, r0])

def dnone : Draw 0 := ⟨zfun, zfun, none⟩

theorem process_draw_nonconvergence_witness :
    process_draw sr0 sr0.vm_pu sr0.va_degree ([], []) 0 dnone =
      (([] : List (SampleRecord 0)), ([] : List String) ++ [nonconvergence_message 0]) :=
  (process_draw_nonconvergence sr0 sr0.vm_pu sr0.va_degree ([], []) 0 dnone rfl).1

theorem perturbation_within_radius_witness :
    perturbed zfun zfun 0 ∈ Set.Icc (zfun 0 - 1) (zfun 0 + 1) :=
  (perturbation_within_radius zfun zfun zfun zfun 1 1
    (fun i => Set.mem_Icc.mpr ⟨by norm_num [zfun], by norm_num [zfun]⟩)
    (fun i => Set.mem_Icc.mpr ⟨by norm_num [zfun], by norm_num [zfun]⟩)).1 0

theorem getitem_keyerror_input_witness :
    getItem (SampleRecord.toDict r0) = Except.error "input" :=
  getitem_keyerror_input sr0 draws0 r0
    (by simp [generate_samples, sample_loop, process_draw, draws0, r0])

end
